import Mathlib

/-!
# Verification of the cgoose dataset cache (src/sample/datahub.py, src/sample/queries.py)

A shallow embedding of the repository's core: the `Database` class of
`datahub.py` (a mapping from dataset name to a per-dataset metadata dict,
mutated by `_download_data` / `add_data` / `update_data` and read by
`load_data` / `filter_meta`), and the transport helpers `_get`, `_post`,
`_convert_date` of `queries.py`.

Python dicts are embedded as association lists with Python's assignment
semantics (`dictSet`: overwrite in place, else append), Python `str` as
Lean `String`, exceptions as explicit error values threaded with the
mutated state at the point of raising (CPython mutates `self.meta_data`
in place, so a raised exception leaves all mutations made so far visible).
External effects (`urllib.request.urlretrieve`, `zipfile`, the `RawData`
directory contents, `datetime.datetime.now()`, `requests`) are supplied by
an explicit environment.
-/

set_option autoImplicit false

namespace CGoose

/-- Python dict lookup `d[k]` (as an option): first entry with the key.
Dicts built by `dictSet` keep keys unique, so first-match equals the
unique match. -/
def dictGet {α : Type} : List (String × α) → String → Option α
  | [], _ => none
  | (k, v) :: rest, key => if k = key then some v else dictGet rest key

/-- Python dict assignment `d[k] = v`: overwrite the value at the first
occurrence of `k` keeping its position, else append `(k, v)`. -/
def dictSet {α : Type} : List (String × α) → String → α → List (String × α)
  | [], k, v => [(k, v)]
  | (k0, v0) :: rest, k, v =>
      if k0 = k then (k, v) :: rest else (k0, v0) :: dictSet rest k v

/-- Python `d.update(e)`: assign each entry of `e` into `d` in order. -/
def dictUpdate {α : Type} (d e : List (String × α)) : List (String × α) :=
  e.foldl (fun acc p => dictSet acc p.1 p.2) d

/-- Python `dict(pairs)`: build a dict by assigning each pair in order
(later duplicate keys overwrite the value, keeping the first position). -/
def pyDict {α : Type} (ps : List (String × α)) : List (String × α) :=
  ps.foldl (fun acc p => dictSet acc p.1 p.2) []

@[simp] theorem dictGet_nil {α : Type} (k : String) :
    dictGet ([] : List (String × α)) k = none := rfl

theorem dictGet_cons {α : Type} (k0 : String) (v0 : α) (rest : List (String × α))
    (k : String) :
    dictGet ((k0, v0) :: rest) k = if k0 = k then some v0 else dictGet rest k := rfl

@[simp] theorem dictGet_dictSet_self {α : Type} (d : List (String × α)) (k : String) (v : α) :
    dictGet (dictSet d k v) k = some v := by
  induction d with
  | nil => simp [dictSet, dictGet]
  | cons p rest ih =>
      obtain ⟨k0, v0⟩ := p
      by_cases h : k0 = k
      · simp [dictSet, h, dictGet]
      · simp [dictSet, h, dictGet, ih]

theorem dictGet_dictSet_ne {α : Type} (d : List (String × α)) (k k' : String) (v : α)
    (h : k' ≠ k) : dictGet (dictSet d k v) k' = dictGet d k' := by
  induction d with
  | nil => simp [dictSet, dictGet, Ne.symm h]
  | cons p rest ih =>
      obtain ⟨k0, v0⟩ := p
      by_cases h0 : k0 = k
      · subst h0
        simp [dictSet, dictGet, Ne.symm h]
      · simp [dictSet, h0, dictGet, ih]

theorem mem_dictSet {α : Type} (d : List (String × α)) (k : String) (v : α)
    (p : String × α) (hp : p ∈ dictSet d k v) : p = (k, v) ∨ p ∈ d := by
  induction d with
  | nil => simpa [dictSet] using hp
  | cons q rest ih =>
      obtain ⟨k0, v0⟩ := q
      by_cases h : k0 = k
      · simp only [dictSet, if_pos h] at hp
        rcases List.mem_cons.mp hp with h1 | h1
        · exact Or.inl h1
        · exact Or.inr (List.mem_cons_of_mem _ h1)
      · simp only [dictSet, if_neg h] at hp
        rcases List.mem_cons.mp hp with h1 | h1
        · exact Or.inr (List.mem_cons.mpr (Or.inl h1))
        · rcases ih h1 with h2 | h2
          · exact Or.inl h2
          · exact Or.inr (List.mem_cons_of_mem _ h2)

theorem dictGet_some_mem {α : Type} (d : List (String × α)) (k : String) (v : α)
    (h : dictGet d k = some v) : (k, v) ∈ d := by
  induction d with
  | nil => simp [dictGet] at h
  | cons p rest ih =>
      obtain ⟨k0, v0⟩ := p
      by_cases h0 : k0 = k
      · subst h0
        simp [dictGet] at h
        subst h
        exact List.mem_cons_self _ _
      · simp [dictGet, h0] at h
        exact List.mem_cons_of_mem _ (ih h)

theorem dictGet_isSome_dictSet {α : Type} (d : List (String × α)) (k k' : String) (v : α)
    (h : (dictGet d k').isSome) : (dictGet (dictSet d k v) k').isSome := by
  by_cases hk : k' = k
  · subst hk; simp
  · rwa [dictGet_dictSet_ne _ _ _ _ hk]

theorem dictGet_isSome_dictUpdate {α : Type} (e d : List (String × α)) (k : String)
    (h : (dictGet d k).isSome) : (dictGet (dictUpdate d e) k).isSome := by
  induction e generalizing d with
  | nil => simpa [dictUpdate] using h
  | cons p rest ih =>
      simp only [dictUpdate, List.foldl_cons]
      exact ih _ (dictGet_isSome_dictSet _ _ _ _ h)

theorem dictGet_dictUpdate_not_mem {α : Type} (e d : List (String × α)) (k : String)
    (h : k ∉ e.map Prod.fst) : dictGet (dictUpdate d e) k = dictGet d k := by
  induction e generalizing d with
  | nil => simp [dictUpdate]
  | cons p rest ih =>
      simp only [List.map_cons, List.mem_cons] at h
      push_neg at h
      show dictGet (dictUpdate (dictSet d p.1 p.2) rest) k = dictGet d k
      rw [ih _ h.2, dictGet_dictSet_ne _ _ _ _ h.1]

theorem mem_map_fst_dictSet {α : Type} (d : List (String × α)) (k k' : String) (v : α) :
    k' ∈ (dictSet d k v).map Prod.fst ↔ k' ∈ d.map Prod.fst ∨ k' = k := by
  induction d with
  | nil => simp [dictSet]
  | cons p rest ih =>
      obtain ⟨k0, v0⟩ := p
      by_cases h : k0 = k
      · subst h
        simp [dictSet]
        tauto
      · simp [dictSet, h, ih]
        tauto

theorem nodup_map_fst_dictSet {α : Type} (d : List (String × α)) (k : String) (v : α)
    (h : (d.map Prod.fst).Nodup) : ((dictSet d k v).map Prod.fst).Nodup := by
  induction d with
  | nil => simp [dictSet]
  | cons p rest ih =>
      obtain ⟨k0, v0⟩ := p
      simp only [List.map_cons, List.nodup_cons] at h
      by_cases hk : k0 = k
      · subst hk
        have e1 : dictSet ((k0, v0) :: rest) k0 v = (k0, v) :: rest := by
          simp [dictSet]
        rw [e1]
        simp only [List.map_cons, List.nodup_cons]
        exact h
      · simp only [dictSet, if_neg hk, List.map_cons, List.nodup_cons]
        refine ⟨?_, ih h.2⟩
        rw [mem_map_fst_dictSet]
        rintro (h1 | h1)
        · exact h.1 h1
        · exact hk h1

theorem nodup_map_fst_pyDict {α : Type} (ps : List (String × α)) :
    ((pyDict ps).map Prod.fst).Nodup := by
  suffices h : ∀ (acc : List (String × α)), (acc.map Prod.fst).Nodup →
      ((ps.foldl (fun a p => dictSet a p.1 p.2) acc).map Prod.fst).Nodup by
    exact h [] (by simp)
  induction ps with
  | nil => intro acc hacc; simpa using hacc
  | cons p rest ih =>
      intro acc hacc
      simp only [List.foldl_cons]
      exact ih _ (nodup_map_fst_dictSet _ _ _ hacc)

theorem dictGet_dictUpdate_of_nodup {α : Type} (e d : List (String × α)) (k : String) (v : α)
    (hnd : (e.map Prod.fst).Nodup) (h : dictGet e k = some v) :
    dictGet (dictUpdate d e) k = some v := by
  induction e generalizing d with
  | nil => simp [dictGet] at h
  | cons p rest ih =>
      obtain ⟨k0, v0⟩ := p
      simp only [List.map_cons, List.nodup_cons] at hnd
      show dictGet (dictUpdate (dictSet d k0 v0) rest) k = some v
      by_cases h0 : k0 = k
      · subst h0
        simp [dictGet] at h
        subst h
        rw [dictGet_dictUpdate_not_mem _ _ _ hnd.1]
        simp
      · simp [dictGet, h0] at h
        exact ih _ hnd.2 h

/-! ## URL extension extraction

`datahub.py` line 48: `dl_type = dl_url[dl_url.rfind('.'):]`.
`str.rfind` returns the index of the last `'.'`, or `-1` when there is
none; slicing from a nonnegative index drops that many characters, and
slicing from `-1` yields the final character (empty for the empty string).
-/

/-- The suffix of the character list starting at the last `'.'`
(inclusive), or `none` when no `'.'` occurs: exactly
`s[s.rfind('.'):]` for the case `rfind ≥ 0`. -/
def suffixFromLastDot : List Char → Option (List Char)
  | [] => none
  | c :: cs =>
      match suffixFromLastDot cs with
      | some suf => some suf
      | none => if c = '.' then some (c :: cs) else none

/-- `dl_url[dl_url.rfind('.'):]` from `datahub.py` line 48, on character
lists: the suffix from the last dot, or the Python slice `s[-1:]` when
`rfind` returned `-1`. -/
def dlTypeL (s : List Char) : List Char :=
  match suffixFromLastDot s with
  | some suf => suf
  | none => s.drop (s.length - 1)

/-- `dl_url[dl_url.rfind('.'):]` on strings. -/
def dlType (s : String) : String := ⟨dlTypeL s.data⟩

/-- `s` ends with the string `t` (explicit suffix decomposition). -/
def strEndsWith (s t : String) : Prop := ∃ u : List Char, s.data = u ++ t.data

theorem suffixFromLastDot_none_not_mem (s : List Char)
    (h : suffixFromLastDot s = none) : '.' ∉ s := by
  induction s with
  | nil => simp
  | cons c cs ih =>
      simp only [suffixFromLastDot] at h
      rcases h1 : suffixFromLastDot cs with _ | suf
      · rw [h1] at h
        simp only [List.mem_cons]
        by_cases hc : c = '.'
        · simp [hc] at h
        · rintro (h2 | h2)
          · exact hc h2.symm
          · exact ih h1 h2
      · rw [h1] at h
        simp at h

theorem suffixFromLastDot_zip_iff (s : List Char) :
    suffixFromLastDot s = some ('.' :: ('z' :: 'i' :: 'p' :: [])) ↔
      ∃ t : List Char, s = t ++ '.' :: ('z' :: 'i' :: 'p' :: []) := by
  induction s with
  | nil =>
      constructor
      · intro h; simp [suffixFromLastDot] at h
      · rintro ⟨t, ht⟩; exact absurd (congrArg List.length ht) (by simp)
  | cons c cs ih =>
      constructor
      · intro h
        simp only [suffixFromLastDot] at h
        rcases h1 : suffixFromLastDot cs with _ | suf
        · rw [h1] at h
          by_cases hc : c = '.'
          · rw [if_pos hc] at h
            simp only [Option.some.injEq] at h
            exact ⟨[], by simp [h]⟩
          · rw [if_neg hc] at h
            simp at h
        · rw [h1] at h
          simp only [Option.some.injEq] at h
          subst h
          obtain ⟨t, ht⟩ := ih.mp h1
          exact ⟨c :: t, by simp [ht]⟩
      · rintro ⟨t, ht⟩
        match t, ht with
        | [], ht =>
            simp only [List.nil_append, List.cons.injEq] at ht
            obtain ⟨hc, hcs⟩ := ht
            subst hc; subst hcs
            have h0 : suffixFromLastDot ('z' :: 'i' :: 'p' :: []) = none := by
              simp [suffixFromLastDot]
            simp [suffixFromLastDot, h0]
        | c0 :: t0, ht =>
            simp only [List.cons_append, List.cons.injEq] at ht
            obtain ⟨hc, hcs⟩ := ht
            subst hc
            have h1 : suffixFromLastDot cs = some ('.' :: ('z' :: 'i' :: 'p' :: [])) :=
              ih.mpr ⟨t0, hcs⟩
            simp [suffixFromLastDot, h1]

/-- The computed download type equals `".zip"` exactly when the URL ends
in `".zip"`. -/
theorem dlType_eq_zip_iff (s : String) :
    dlType s = ".zip" ↔ strEndsWith s ".zip" := by
  have hdata : (".zip" : String).data = '.' :: ('z' :: 'i' :: 'p' :: []) := rfl
  constructor
  · intro h
    have h2 : dlTypeL s.data = '.' :: ('z' :: 'i' :: 'p' :: []) := by
      have := congrArg String.data h
      simpa [dlType] using this
    rcases h1 : suffixFromLastDot s.data with _ | suf
    · exfalso
      have h4 : dlTypeL s.data = s.data.drop (s.data.length - 1) := by
        unfold dlTypeL
        rw [h1]
      have h3 : s.data.drop (s.data.length - 1) = '.' :: ('z' :: 'i' :: 'p' :: []) := by
        rw [← h4, h2]
      have hlen : (s.data.drop (s.data.length - 1)).length ≤ 1 := by
        simp [List.length_drop]
        omega
      rw [h3] at hlen
      simp at hlen
    · have h4 : dlTypeL s.data = suf := by
        unfold dlTypeL
        rw [h1]
      have h5 : suffixFromLastDot s.data = some ('.' :: ('z' :: 'i' :: 'p' :: [])) := by
        rw [h1, ← h4, h2]
      obtain ⟨t, ht⟩ := (suffixFromLastDot_zip_iff s.data).mp h5
      exact ⟨t, by rw [ht, hdata]⟩
  · rintro ⟨u, hu⟩
    rw [hdata] at hu
    have h1 : suffixFromLastDot s.data = some ('.' :: ('z' :: 'i' :: 'p' :: [])) :=
      (suffixFromLastDot_zip_iff s.data).mpr ⟨u, hu⟩
    show (⟨dlTypeL s.data⟩ : String) = ".zip"
    unfold dlTypeL
    rw [h1]

/-! ## The `Database` class of `datahub.py`

`self.meta_data` is a dict from dataset name to a per-dataset dict whose
string values are the download url (`'dl_url'`), the two artifact paths
(`'data_file'`, `'meta_data'`), the `'updated'` timestamp
(`datetime.datetime.now()`, embedded as an opaque string supplied by the
environment), and the extra fields merged from the metadata CSV. -/

/-- A per-dataset metadata dict (second level of `Database.meta_data`). -/
abbrev Record := List (String × String)

/-- `Database.meta_data`: dataset name to record. -/
abbrev Store := List (String × Record)

/-- Exceptions raised by the embedded code. -/
inductive PyErr where
  | keyError (k : String)
  | typeError (msg : String)
  | indexError
  | fileNotFoundError (path : String)
  deriving DecidableEq, Repr

/-- The external world as `_download_data` observes it: the entry listing
of the downloaded zip (`zip_ref.namelist()`), the readable CSV files under
`RawData` after `extractall` (each as its list of rows, `none` meaning
`open` raises `FileNotFoundError`), and the current time. -/
structure Env where
  namelist : List String
  fs : String → Option (List (List String))
  now : String

/-- The in-memory `meta_data` dict together with the contents of the
pickle file `RawData/meta_data.p` that `save` writes. -/
structure DbState where
  mem : Store
  disk : Store
  deriving Repr

/-- Header cleaning, `datahub.py` lines 71-72:
`''.join(c for c in d if c not in 'ï»¿"')`. -/
def cleanToken (s : String) : String :=
  ⟨s.data.filter (fun c => !(c = 'ï' || c = '»' || c = '¿' || c = '"'))⟩

/-- `Database._download_data` (`datahub.py` lines 40-83), embedded with
explicit state passing: the pair returned is `self.meta_data` as mutated
so far, together with the exception raised (`none` on success).  Mutations
are committed one by one, exactly as CPython mutates the record dict in
place, so a raise leaves every earlier mutation visible.  The effects of
`urllib.request.urlretrieve`, `zip_ref.extractall` and the final unlink
(whose failure is caught and only printed) do not touch `meta_data` and
are not modelled beyond `env`. -/
def download_data (store : Store) (data_name : String) (env : Env) :
    Store × Option PyErr :=
  match dictGet store data_name with
  | none => (store, some (.keyError data_name))
  | some rec0 =>
    match dictGet rec0 "dl_url" with
    | none => (store, some (.keyError "dl_url"))
    | some dl_url =>
      let dl_type := dlType dl_url
      if dl_type = ".zip" then
        match env.namelist.get? 0 with
        | none => (store, some .indexError)
        | some name0 =>
          let rec1 := dictSet rec0 "data_file" ("RawData/" ++ name0)
          let store1 := dictSet store data_name rec1
          match env.namelist.get? 1 with
          | none => (store1, some .indexError)
          | some name1 =>
            let rec2 := dictSet rec1 "meta_data" ("RawData/" ++ name1)
            let store2 := dictSet store1 data_name rec2
            match env.fs "RawData/11100134_MetaData.csv" with
            | none => (store2, some (.fileNotFoundError "RawData/11100134_MetaData.csv"))
            | some rows =>
              let result := rows.take 2
              match result.get? 0 with
              | none => (store2, some .indexError)
              | some row0 =>
                let header := row0.map cleanToken
                match result.get? 1 with
                | none => (store2, some .indexError)
                | some row1 =>
                  let rec3 := dictUpdate rec2 (pyDict (header.zip row1))
                  let store3 := dictSet store2 data_name rec3
                  let rec4 := dictSet rec3 "updated" env.now
                  let store4 := dictSet store3 data_name rec4
                  (store4, none)
      else (store, some (.typeError "Download is not a .zip file."))

/-- `Database.add_data` (`datahub.py` lines 101-114): reset the record to
`{'dl_url': dl_url}`, run `_download_data`, then `save` — the pickle is
rewritten only when no exception escaped. -/
def add_data (st : DbState) (data_name dl_url : String) (env : Env) :
    DbState × Option PyErr :=
  let mem0 := dictSet st.mem data_name [("dl_url", dl_url)]
  match download_data mem0 data_name env with
  | (mem1, some e) => ({ mem := mem1, disk := st.disk }, some e)
  | (mem1, none) => ({ mem := mem1, disk := mem1 }, none)

/-- `Database.update_data` (`datahub.py` lines 116-123): run
`_download_data` on the existing record, then `save`. -/
def update_data (st : DbState) (data_name : String) (env : Env) :
    DbState × Option PyErr :=
  match download_data st.mem data_name env with
  | (mem1, some e) => ({ mem := mem1, disk := st.disk }, some e)
  | (mem1, none) => ({ mem := mem1, disk := mem1 }, none)

/-- `Database.load_data` (`datahub.py` lines 85-95):
`pandas.read_csv(self.meta_data[data_name]['data_file'])`, with
`read_csv` supplied as the external CSV loader. -/
def load_data {α : Type} (store : Store) (data_name : String)
    (read_csv : String → α) : Except PyErr α :=
  match dictGet store data_name with
  | none => .error (.keyError data_name)
  | some rec0 =>
    match dictGet rec0 "data_file" with
    | none => .error (.keyError "data_file")
    | some path => .ok (read_csv path)

/-- `Database.filter_meta` (`datahub.py` lines 125-141): build a fresh
two-level dict keeping only the sub-keys listed in `attributes`. -/
def filter_meta (store : Store) (attributes : List String) : Store :=
  store.map (fun kv =>
    (kv.1, kv.2.foldl
      (fun acc skv => if skv.1 ∈ attributes then dictSet acc skv.1 skv.2 else acc)
      []))

/-! ## The transport helpers of `queries.py` -/

/-- A `requests` response as `_get`/`_post` observe it: the status code,
the body text, and the value `result.json()` would produce. -/
structure HttpResp (J : Type) where
  status_code : Nat
  text : String
  json : J

/-- The exceptions of `queries.py`: `ServerFailedError` stores
`str(result.status_code)`; `EmptyJsonError(url, json)` stores the url and
the post body (absent for `_get`). -/
inductive QErr (B : Type) where
  | serverFailedError (status_code : String)
  | emptyJsonError (url : String) (json : Option B)

/-- `_get` (`queries.py` lines 80-93), with `requests.get` supplied as
`net`. -/
def queries_get {J B : Type} (net : String → HttpResp J) (url : String) :
    Except (QErr B) J :=
  let result := net url
  if result.status_code ≥ 500 then
    .error (.serverFailedError (toString result.status_code))
  else if result.text = "" then
    .error (.emptyJsonError url none)
  else .ok result.json

/-- `_post` (`queries.py` lines 96-111), with `requests.post` supplied as
`net`; the post body is also recorded inside `EmptyJsonError`. -/
def queries_post {J B : Type} (net : String → B → HttpResp J) (url : String)
    (json : B) : Except (QErr B) J :=
  let result := net url json
  if result.status_code ≥ 500 then
    .error (.serverFailedError (toString result.status_code))
  else if result.text = "" then
    .error (.emptyJsonError url (some json))
  else .ok result.json

/-- Argument to `_convert_date`: either a `datetime.date` (its year,
month and day) or an already formatted string. -/
inductive DateInput where
  | date (year month day : Nat)
  | str (s : String)

/-- `'-'.join(strings)`. -/
def strJoin (sep : String) : List String → String
  | [] => ""
  | [s] => s
  | s :: rest => s ++ sep ++ strJoin sep rest

/-- `_convert_date` (`queries.py` lines 114-125):
`'-'.join((str(date.year), str(date.month), str(date.day)))` for a
`datetime.date`, the string unchanged otherwise. -/
def convert_date : DateInput → String
  | .date y m d => strJoin "-" [toString y, toString m, toString d]
  | .str s => s

/-! ## Further dict lemmas -/

theorem dictSet_dictSet_same {α : Type} (d : List (String × α)) (k : String) (v1 v2 : α) :
    dictSet (dictSet d k v1) k v2 = dictSet d k v2 := by
  induction d with
  | nil => simp [dictSet]
  | cons p rest ih =>
      obtain ⟨k0, v0⟩ := p
      by_cases h : k0 = k
      · subst h
        simp [dictSet]
      · simp [dictSet, h, ih]

theorem mem_map_fst_foldl_dictSet {α : Type} (ps : List (String × α)) :
    ∀ (acc : List (String × α)) (k : String),
      k ∈ ((ps.foldl (fun a p => dictSet a p.1 p.2) acc).map Prod.fst) ↔
        k ∈ acc.map Prod.fst ∨ k ∈ ps.map Prod.fst := by
  induction ps with
  | nil => intro acc k; simp
  | cons p rest ih =>
      intro acc k
      simp only [List.foldl_cons, List.map_cons, List.mem_cons]
      rw [ih, mem_map_fst_dictSet]
      tauto

theorem mem_map_fst_pyDict {α : Type} (ps : List (String × α)) (k : String) :
    k ∈ (pyDict ps).map Prod.fst ↔ k ∈ ps.map Prod.fst := by
  rw [pyDict, mem_map_fst_foldl_dictSet]
  simp

/-- `Database.meta_data` invariant candidate: the two artifact paths of a
record are either both absent or both present. -/
def pathsOK (r : Record) : Prop :=
  ((dictGet r "data_file").isSome ↔ (dictGet r "meta_data").isSome)

instance (r : Record) : Decidable (pathsOK r) := by
  unfold pathsOK; infer_instance

/-- Every record of the store satisfies `pathsOK`. -/
def storePathsOK (s : Store) : Prop := ∀ p ∈ s, pathsOK p.2

instance (s : Store) : Decidable (storePathsOK s) := by
  unfold storePathsOK; infer_instance

theorem storePathsOK_dictSet (s : Store) (k : String) (r : Record)
    (hs : storePathsOK s) (hr : pathsOK r) : storePathsOK (dictSet s k r) := by
  intro p hp
  rcases mem_dictSet s k r p hp with h | h
  · rw [h]; exact hr
  · exact hs p h

/-! ## Claim theorems -/

/-- C5: for every name not present in the store, `update_data` (refresh)
fails with `KeyError(name)` — the `UnknownDataset` error — and both the
in-memory store and the persisted store are left unchanged. -/
theorem C5_refresh_unknown_dataset (st : DbState) (name : String) (env : Env)
    (h : dictGet st.mem name = none) :
    update_data st name env = (st, some (.keyError name)) := by
  have hd : download_data st.mem name env = (st.mem, some (.keyError name)) := by
    unfold download_data
    rw [h]
  unfold update_data
  rw [hd]

theorem C5_refresh_unknown_dataset_witness :
    update_data ⟨[], []⟩ "never-registered" ⟨[], fun _ => none, "T"⟩ =
      (⟨[], []⟩, some (.keyError "never-registered")) :=
  C5_refresh_unknown_dataset ⟨[], []⟩ "never-registered" ⟨[], fun _ => none, "T"⟩ rfl

/-- C6: `load_data` fails with `KeyError(name)` (`UnknownDataset`) when
the name is not in the store, fails with `KeyError('data_file')`
(`DataNotFetched`) when the record exists but has no data artifact path,
and otherwise returns the loaded contents of the recorded data artifact
path. -/
theorem C6_load_data (α : Type) (read_csv : String → α) (store : Store) (name : String) :
    (dictGet store name = none →
      load_data store name read_csv = .error (.keyError name)) ∧
    (∀ rec0, dictGet store name = some rec0 → dictGet rec0 "data_file" = none →
      load_data store name read_csv = .error (.keyError "data_file")) ∧
    (∀ rec0 path, dictGet store name = some rec0 → dictGet rec0 "data_file" = some path →
      load_data store name read_csv = .ok (read_csv path)) := by
  refine ⟨?_, ?_, ?_⟩
  · intro h
    unfold load_data
    rw [h]
  · intro rec0 h1 h2
    unfold load_data
    rw [h1]
    simp only [h2]
  · intro rec0 path h1 h2
    unfold load_data
    rw [h1]
    simp only [h2]

theorem C6_load_data_witness :
    load_data ([("a", [("data_file", "RawData/a.csv")])] : Store) "a" (fun s => s) =
        .ok "RawData/a.csv" ∧
    load_data ([("a", [("data_file", "RawData/a.csv")])] : Store) "b" (fun s => s) =
        .error (.keyError "b") ∧
    load_data ([("c", [("dl_url", "u")])] : Store) "c" (fun s => s) =
        .error (.keyError "data_file") := by
  refine ⟨?_, ?_, ?_⟩
  · exact (C6_load_data String (fun s => s) [("a", [("data_file", "RawData/a.csv")])] "a").2.2
      [("data_file", "RawData/a.csv")] "RawData/a.csv" rfl rfl
  · exact (C6_load_data String (fun s => s) [("a", [("data_file", "RawData/a.csv")])] "b").1
      (by decide)
  · exact (C6_load_data String (fun s => s) [("c", [("dl_url", "u")])] "c").2.1
      [("dl_url", "u")] rfl (by decide)

/-- C8: for every request through `_get` or `_post`, `ServerFailedError`
(carrying `str(status_code)`) is raised exactly when the status is at
least 500, `EmptyJsonError` exactly when the status is below 500 and the
body is empty, and otherwise the parsed JSON value is returned. -/
theorem C8_transport_classification (J B : Type) (netg : String → HttpResp J)
    (netp : String → B → HttpResp J) (url : String) (body : B) :
    (queries_get (B := B) netg url =
        .error (.serverFailedError (toString (netg url).status_code)) ↔
      500 ≤ (netg url).status_code) ∧
    (queries_get (B := B) netg url = .error (.emptyJsonError url none) ↔
      ((netg url).status_code < 500 ∧ (netg url).text = "")) ∧
    (queries_get (B := B) netg url = .ok (netg url).json ↔
      ((netg url).status_code < 500 ∧ (netg url).text ≠ "")) ∧
    (queries_post netp url body =
        .error (.serverFailedError (toString (netp url body).status_code)) ↔
      500 ≤ (netp url body).status_code) ∧
    (queries_post netp url body = .error (.emptyJsonError url (some body)) ↔
      ((netp url body).status_code < 500 ∧ (netp url body).text = "")) ∧
    (queries_post netp url body = .ok (netp url body).json ↔
      ((netp url body).status_code < 500 ∧ (netp url body).text ≠ "")) := by
  unfold queries_get queries_post
  by_cases h1 : 500 ≤ (netg url).status_code <;>
    by_cases h2 : (netg url).text = "" <;>
      by_cases h3 : 500 ≤ (netp url body).status_code <;>
        by_cases h4 : (netp url body).text = "" <;>
          simp [h1, h2, h3, h4, Nat.lt_iff_add_one_le, Nat.not_le.mp]

/-- C9: `_convert_date` returns a pre-formatted string unchanged, and
formats a `datetime.date` as `year-month-day` with no zero-padding of
month or day: `datetime.date(2017, 1, 5)` becomes `"2017-1-5"`, not
`"2017-01-05"`. -/
theorem C9_convert_date :
    (∀ s : String, convert_date (.str s) = s) ∧
    (∀ y m d : Nat, convert_date (.date y m d) =
      toString y ++ "-" ++ (toString m ++ "-" ++ toString d)) ∧
    convert_date (.date 2017 1 5) = "2017-1-5" ∧
    convert_date (.date 2017 1 5) ≠ "2017-01-05" := by
  refine ⟨fun s => rfl, fun y m d => rfl, by decide, by decide⟩

theorem filter_meta_record_mem (attributes : List String) (rec : Record) :
    ∀ (acc : Record),
      ∀ q ∈ rec.foldl
        (fun acc skv => if skv.1 ∈ attributes then dictSet acc skv.1 skv.2 else acc) acc,
        q ∈ acc ∨ (q.1 ∈ attributes ∧ q ∈ rec) := by
  induction rec with
  | nil => intro acc q hq; exact Or.inl hq
  | cons skv rest ih =>
      intro acc q hq
      simp only [List.foldl_cons] at hq
      rcases ih _ q hq with h | h
      · by_cases hmem : skv.1 ∈ attributes
        · rw [if_pos hmem] at h
          rcases mem_dictSet _ _ _ _ h with h2 | h2
          · right
            rw [h2]
            exact ⟨hmem, List.mem_cons_self _ _⟩
          · exact Or.inl h2
        · rw [if_neg hmem] at h
          exact Or.inl h
      · exact Or.inr ⟨h.1, List.mem_cons_of_mem _ h.2⟩

/-- C7: `filter_meta` is a pure projection (the embedding is a function
of the store, which it leaves untouched): the returned mapping has
exactly the top-level dataset names of the store, every returned
sub-entry has its key among the requested attributes, and every returned
sub-entry is an entry of the corresponding original record (attributes
missing from a record are silently omitted; the function is total, so no
error is possible). -/
theorem C7_filter_meta_projection (store : Store) (attributes : List String) :
    (filter_meta store attributes).map Prod.fst = store.map Prod.fst ∧
    (∀ p ∈ filter_meta store attributes, ∀ q ∈ p.2,
      q.1 ∈ attributes ∧ ∃ r ∈ store, r.1 = p.1 ∧ q ∈ r.2) := by
  constructor
  · simp [filter_meta]
  · intro p hp q hq
    simp only [filter_meta, List.mem_map] at hp
    obtain ⟨kv, hkv, hpe⟩ := hp
    rw [← hpe] at hq
    rcases filter_meta_record_mem attributes kv.2 [] q hq with h | h
    · simp at h
    · exact ⟨h.1, ⟨kv, hkv, by rw [← hpe], h.2⟩⟩

theorem C7_filter_meta_projection_witness :
    (filter_meta [("n", [("a", "1"), ("b", "2")])] ["a"]).map Prod.fst =
        ([("n", [("a", "1"), ("b", "2")])] : Store).map Prod.fst ∧
    (("a", "1") : String × String).1 ∈ ["a"] ∧
      ∃ r ∈ ([("n", [("a", "1"), ("b", "2")])] : Store),
        r.1 = (("n", [("a", "1")]) : String × Record).1 ∧ ("a", "1") ∈ r.2 :=
  ⟨(C7_filter_meta_projection [("n", [("a", "1"), ("b", "2")])] ["a"]).1,
    (C7_filter_meta_projection [("n", [("a", "1"), ("b", "2")])] ["a"]).2
      ("n", [("a", "1")]) (by decide) ("a", "1") (by decide)⟩

/-- C4: registering a dataset whose URL does not end in `".zip"` raises
`TypeError('Download is not a .zip file.')` — the `UnsupportedArchiveFormat`
error — and leaves the in-memory store with exactly
`{name: {'dl_url': url}}` for that name (no artifact paths, no extra
fields) and the persisted store untouched. -/
theorem C4_unsupported_archive_format (st : DbState) (name url : String) (env : Env)
    (h : ¬ strEndsWith url ".zip") :
    add_data st name url env =
      ({ mem := dictSet st.mem name [("dl_url", url)], disk := st.disk },
        some (.typeError "Download is not a .zip file.")) ∧
    dictGet (dictSet st.mem name [("dl_url", url)]) name = some [("dl_url", url)] := by
  have hz : dlType url ≠ ".zip" := fun hcon => h ((dlType_eq_zip_iff url).mp hcon)
  constructor
  · have hd : download_data (dictSet st.mem name [("dl_url", url)]) name env =
        (dictSet st.mem name [("dl_url", url)],
          some (.typeError "Download is not a .zip file.")) := by
      unfold download_data
      rw [dictGet_dictSet_self]
      simp [dictGet, hz]
    simp only [add_data, hd]
  · exact dictGet_dictSet_self _ _ _

theorem C4_unsupported_archive_format_witness :
    add_data ⟨[], []⟩ "x" "http://host/file.tar" ⟨[], fun _ => none, "T"⟩ =
      ({ mem := [("x", [("dl_url", "http://host/file.tar")])], disk := [] },
        some (.typeError "Download is not a .zip file.")) ∧
    dictGet ([("x", [("dl_url", "http://host/file.tar")])] : Store) "x" =
      some [("dl_url", "http://host/file.tar")] :=
  C4_unsupported_archive_format ⟨[], []⟩ "x" "http://host/file.tar" ⟨[], fun _ => none, "T"⟩
    (fun hend => absurd ((dlType_eq_zip_iff "http://host/file.tar").mpr hend) (by decide))

/-- The environment exhibiting the hardcoded metadata path: the fetched
archive for dataset `"ds"` lists `data.csv` and `other_MetaData.csv`; the
dataset's own extracted metadata artifact `RawData/other_MetaData.csv`
holds header `A` with value `1`, while the unrelated fixed file
`RawData/11100134_MetaData.csv` holds header `B` with value `2`. -/
def envC2 : Env :=
  { namelist := ["data.csv", "other_MetaData.csv"],
    fs := fun p =>
      if p = "RawData/11100134_MetaData.csv" then some [["B"], ["2"]]
      else if p = "RawData/other_MetaData.csv" then some [["A"], ["1"]]
      else none,
    now := "T1" }

/-- C2 (code bug): the Metadata Merge step of `_download_data` reads the
fixed path `RawData/11100134_MetaData.csv` (`datahub.py` line 64), not
the metadata artifact recorded for the current dataset.  Registering
`"ds"` under `envC2` records `RawData/other_MetaData.csv` as the metadata
artifact (holding `A -> 1`) yet merges `B -> 2` taken from the fixed
file, and no field `A` appears. -/
theorem C2_hardcoded_metadata_path :
    (add_data ⟨[], []⟩ "ds" "http://h/b.zip" envC2).1.mem =
      [("ds", [("dl_url", "http://h/b.zip"), ("data_file", "RawData/data.csv"),
               ("meta_data", "RawData/other_MetaData.csv"), ("B", "2"),
               ("updated", "T1")])] ∧
    envC2.fs "RawData/other_MetaData.csv" = some [["A"], ["1"]] ∧
    envC2.fs "RawData/11100134_MetaData.csv" = some [["B"], ["2"]] ∧
    dictGet [("dl_url", "http://h/b.zip"), ("data_file", "RawData/data.csv"),
             ("meta_data", "RawData/other_MetaData.csv"), ("B", "2"),
             ("updated", "T1")] "A" = none := by
  refine ⟨rfl, rfl, rfl, rfl⟩

/-! ## Evaluation lemmas for the branches of `_download_data` -/

theorem download_data_emptylist (store : Store) (name : String) (env : Env)
    (rec0 : Record) (url : String)
    (h1 : dictGet store name = some rec0)
    (h2 : dictGet rec0 "dl_url" = some url)
    (hz : dlType url = ".zip")
    (h4 : env.namelist.get? 0 = none) :
    download_data store name env = (store, some .indexError) := by
  unfold download_data
  simp only [h1, h2, hz, if_pos, h4]

theorem download_data_onelist (store : Store) (name : String) (env : Env)
    (rec0 : Record) (url e0 : String)
    (h1 : dictGet store name = some rec0)
    (h2 : dictGet rec0 "dl_url" = some url)
    (hz : dlType url = ".zip")
    (h4 : env.namelist.get? 0 = some e0)
    (h5 : env.namelist.get? 1 = none) :
    download_data store name env =
      (dictSet store name (dictSet rec0 "data_file" ("RawData/" ++ e0)),
        some .indexError) := by
  unfold download_data
  simp only [h1, h2, hz, if_pos, h4, h5]

theorem download_data_zip_success (store : Store) (name : String) (env : Env)
    (rec0 : Record) (url e0 e1 : String) (rows : List (List String))
    (row0 row1 : List String)
    (h1 : dictGet store name = some rec0)
    (h2 : dictGet rec0 "dl_url" = some url)
    (hz : dlType url = ".zip")
    (h4 : env.namelist.get? 0 = some e0)
    (h5 : env.namelist.get? 1 = some e1)
    (h6 : env.fs "RawData/11100134_MetaData.csv" = some rows)
    (h7 : (rows.take 2).get? 0 = some row0)
    (h8 : (rows.take 2).get? 1 = some row1) :
    download_data store name env =
      (dictSet store name
        (dictSet
          (dictUpdate
            (dictSet (dictSet rec0 "data_file" ("RawData/" ++ e0)) "meta_data"
              ("RawData/" ++ e1))
            (pyDict ((row0.map cleanToken).zip row1)))
          "updated" env.now),
        none) := by
  unfold download_data
  simp only [h1, h2, hz, if_pos, h4, h5, h6, h7, h8, dictSet_dictSet_same]

/-- C10: the fetch pipeline assumes at least two archive entries: with
fewer than two names in `zip_ref.namelist()`, registration fails with an
`IndexError`, and in the one-entry case the failure strikes after
`'data_file'` was already assigned, leaving a record with a data artifact
path, no metadata artifact path, and the source url. -/
theorem C10_short_archive_listing (st : DbState) (name url : String) (env : Env)
    (hz : strEndsWith url ".zip") :
    (env.namelist.length < 2 → (add_data st name url env).2 = some .indexError) ∧
    (∀ e0, env.namelist = [e0] →
      dictGet (add_data st name url env).1.mem name =
        some [("dl_url", url), ("data_file", "RawData/" ++ e0)] ∧
      dictGet [("dl_url", url), ("data_file", "RawData/" ++ e0)] "data_file" =
        some ("RawData/" ++ e0) ∧
      dictGet [("dl_url", url), ("data_file", "RawData/" ++ e0)] "meta_data" = none ∧
      dictGet [("dl_url", url), ("data_file", "RawData/" ++ e0)] "dl_url" = some url) := by
  have hz' : dlType url = ".zip" := (dlType_eq_zip_iff url).mpr hz
  have hbase : dictGet (dictSet st.mem name [("dl_url", url)]) name =
      some [("dl_url", url)] := dictGet_dictSet_self _ _ _
  have hurl : dictGet [("dl_url", url)] "dl_url" = some url := by
    simp [dictGet]
  constructor
  · intro hlen
    rcases hnl : env.namelist with _ | ⟨e0, tl⟩
    · have hdl := download_data_emptylist (dictSet st.mem name [("dl_url", url)]) name env
        [("dl_url", url)] url hbase hurl hz' (by rw [hnl]; rfl)
      simp only [add_data, hdl]
    · rcases htl : tl with _ | ⟨e1, tl2⟩
      · subst htl
        have hdl := download_data_onelist (dictSet st.mem name [("dl_url", url)]) name env
          [("dl_url", url)] url e0 hbase hurl hz' (by rw [hnl]; rfl) (by rw [hnl]; rfl)
        simp only [add_data, hdl]
      · exfalso
        rw [hnl, htl] at hlen
        simp at hlen
        omega
  · intro e0 hnl
    have hdl := download_data_onelist (dictSet st.mem name [("dl_url", url)]) name env
      [("dl_url", url)] url e0 hbase hurl hz' (by rw [hnl]; rfl) (by rw [hnl]; rfl)
    have hrec : dictSet [("dl_url", url)] "data_file" ("RawData/" ++ e0) =
        [("dl_url", url), ("data_file", "RawData/" ++ e0)] := by
      simp [dictSet]
    refine ⟨?_, by simp [dictGet], by simp [dictGet], by simp [dictGet]⟩
    simp only [add_data, hdl, hrec]
    exact dictGet_dictSet_self _ _ _

theorem C10_short_archive_listing_witness :
    ((add_data ⟨[], []⟩ "cube" "http://s/cube.zip"
        ⟨["table.csv"], fun _ => none, "T3"⟩).2 = some .indexError) ∧
    dictGet (add_data ⟨[], []⟩ "cube" "http://s/cube.zip"
        ⟨["table.csv"], fun _ => none, "T3"⟩).1.mem "cube" =
      some [("dl_url", "http://s/cube.zip"), ("data_file", "RawData/" ++ "table.csv")] ∧
    dictGet [("dl_url", "http://s/cube.zip"),
             ("data_file", "RawData/" ++ "table.csv")] "meta_data" = none := by
  have h := C10_short_archive_listing ⟨[], []⟩ "cube" "http://s/cube.zip"
    ⟨["table.csv"], fun _ => none, "T3"⟩ ⟨"http://s/cube".data, rfl⟩
  exact ⟨h.1 (by decide), (h.2 "table.csv" rfl).1, (h.2 "table.csv" rfl).2.2.1⟩

/-- On every store `_download_data` can return with a namelist not of
length one, the both-absent-or-both-present path invariant is preserved. -/
theorem download_preserves_pathsOK (store : Store) (name : String) (env : Env)
    (hlen : env.namelist.length ≠ 1) (h : storePathsOK store) :
    storePathsOK (download_data store name env).1 := by
  unfold download_data
  rcases hA : dictGet store name with _ | rec0
  · simpa only [hA] using h
  simp only [hA]
  rcases hB : dictGet rec0 "dl_url" with _ | url
  · simpa only [hB] using h
  simp only [hB]
  by_cases hz : dlType url = ".zip"
  · simp only [hz, if_pos]
    rcases h0 : env.namelist.get? 0 with _ | e0
    · simpa only [h0] using h
    simp only [h0]
    rcases h1 : env.namelist.get? 1 with _ | e1
    · exfalso
      have hlt : 0 < env.namelist.length := by
        by_contra hcon
        rw [List.get?_eq_none.mpr (by omega)] at h0
        exact Option.noConfusion h0
      have hle : env.namelist.length ≤ 1 := List.get?_eq_none.mp h1
      omega
    simp only [h1, dictSet_dictSet_same]
    have hrec2 : pathsOK
        (dictSet (dictSet rec0 "data_file" ("RawData/" ++ e0)) "meta_data"
          ("RawData/" ++ e1)) := by
      unfold pathsOK
      rw [dictGet_dictSet_self,
        dictGet_dictSet_ne _ _ _ _ (by decide : ("data_file" : String) ≠ "meta_data"),
        dictGet_dictSet_self]
      simp
    rcases hF : env.fs "RawData/11100134_MetaData.csv" with _ | rows
    · simp only [hF]
      exact storePathsOK_dictSet _ _ _ h hrec2
    simp only [hF]
    rcases h7 : (rows.take 2).get? 0 with _ | row0
    · simp only [h7]
      exact storePathsOK_dictSet _ _ _ h hrec2
    simp only [h7]
    rcases h8 : (rows.take 2).get? 1 with _ | row1
    · simp only [h8]
      exact storePathsOK_dictSet _ _ _ h hrec2
    simp only [h8, dictSet_dictSet_same]
    apply storePathsOK_dictSet _ _ _ h
    unfold pathsOK
    unfold pathsOK at hrec2
    rw [dictGet_dictSet_ne _ _ _ _ (by decide : ("data_file" : String) ≠ "updated"),
      dictGet_dictSet_ne _ _ _ _ (by decide : ("meta_data" : String) ≠ "updated")]
    constructor
    · intro _
      apply dictGet_isSome_dictUpdate
      rw [dictGet_dictSet_self]
      rfl
    · intro _
      apply dictGet_isSome_dictUpdate
      rw [dictGet_dictSet_ne _ _ _ _ (by decide : ("data_file" : String) ≠ "meta_data"),
        dictGet_dictSet_self]
      rfl
  · simp only [if_neg hz]
    exact h

/-- C1 counterexample: registering a dataset whose archive lists exactly
one entry leaves its record with a data artifact path and no metadata
artifact path — the two paths are neither both absent nor both present
after the operation. -/
theorem C1_counterexample :
    (add_data ⟨[], []⟩ "cpi" "http://host/bundle.zip"
        ⟨["data.csv"], fun _ => none, "T4"⟩).1.mem =
      [("cpi", [("dl_url", "http://host/bundle.zip"),
                ("data_file", "RawData/data.csv")])] ∧
    dictGet [("dl_url", "http://host/bundle.zip"), ("data_file", "RawData/data.csv")]
        "data_file" = some "RawData/data.csv" ∧
    dictGet [("dl_url", "http://host/bundle.zip"), ("data_file", "RawData/data.csv")]
        "meta_data" = none :=
  ⟨rfl, rfl, rfl⟩

/-- C1 amended: provided the fetched archive does not list exactly one
entry, `add_data` and `update_data` preserve the invariant that every
record's two artifact paths are both absent or both present (a one-entry
listing breaks it, see the counterexample); and whenever the pipeline
fails, the persisted store (the pickle written by `save`) is left exactly
as it was — only the in-memory record may have been partially updated. -/
theorem C1_artifact_paths_amended :
    (∀ (st : DbState) (name url : String) (env : Env),
      env.namelist.length ≠ 1 → storePathsOK st.mem →
      storePathsOK (add_data st name url env).1.mem) ∧
    (∀ (st : DbState) (name : String) (env : Env),
      env.namelist.length ≠ 1 → storePathsOK st.mem →
      storePathsOK (update_data st name env).1.mem) ∧
    (∀ (st : DbState) (name url : String) (env : Env) (res : DbState) (e : PyErr),
      add_data st name url env = (res, some e) → res.disk = st.disk) ∧
    (∀ (st : DbState) (name : String) (env : Env) (res : DbState) (e : PyErr),
      update_data st name env = (res, some e) → res.disk = st.disk) := by
  refine ⟨?_, ?_, ?_, ?_⟩
  · intro st name url env hlen h
    have hmem0 : storePathsOK (dictSet st.mem name [("dl_url", url)]) :=
      storePathsOK_dictSet _ _ _ h (by unfold pathsOK; simp [dictGet])
    have hdp := download_preserves_pathsOK (dictSet st.mem name [("dl_url", url)])
      name env hlen hmem0
    rcases hdl : download_data (dictSet st.mem name [("dl_url", url)]) name env
      with ⟨mem1, e⟩
    rw [hdl] at hdp
    rcases e with _ | err <;> simpa only [add_data, hdl] using hdp
  · intro st name env hlen h
    have hdp := download_preserves_pathsOK st.mem name env hlen h
    rcases hdl : download_data st.mem name env with ⟨mem1, e⟩
    rw [hdl] at hdp
    rcases e with _ | err <;> simpa only [update_data, hdl] using hdp
  · intro st name url env res e heq
    rcases hdl : download_data (dictSet st.mem name [("dl_url", url)]) name env
      with ⟨mem1, e1⟩
    rcases e1 with _ | err <;> simp only [add_data, hdl] at heq
    · injection heq with ha hb
      exact Option.noConfusion hb
    · injection heq with ha hb
      rw [← ha]
  · intro st name env res e heq
    rcases hdl : download_data st.mem name env with ⟨mem1, e1⟩
    rcases e1 with _ | err <;> simp only [update_data, hdl] at heq
    · injection heq with ha hb
      exact Option.noConfusion hb
    · injection heq with ha hb
      rw [← ha]

theorem C1_artifact_paths_amended_witness :
    storePathsOK (add_data ⟨[], []⟩ "gdp" "http://host/gdp.zip"
      ⟨["gdp.csv", "gdp_meta.csv"],
        fun p => if p = "RawData/11100134_MetaData.csv"
          then some [["Code"], ["42"]] else none,
        "T5"⟩).1.mem :=
  C1_artifact_paths_amended.1 ⟨[], []⟩ "gdp" "http://host/gdp.zip"
    ⟨["gdp.csv", "gdp_meta.csv"],
      fun p => if p = "RawData/11100134_MetaData.csv"
        then some [["Code"], ["42"]] else none,
      "T5"⟩ (by decide) (by intro p hp; simp at hp)

/-- A previously fetched record holding the extra field `Old -> 1` from
an earlier fetch. -/
def recC3 : Record :=
  [("dl_url", "http://h/old.zip"), ("data_file", "RawData/old.csv"),
   ("meta_data", "RawData/old_meta.csv"), ("Old", "1"), ("updated", "T0")]

/-- A refresh environment whose metadata CSV produces only the header
`Code` with value `2`. -/
def envC3 : Env :=
  { namelist := ["new.csv", "new_meta.csv"],
    fs := fun p =>
      if p = "RawData/11100134_MetaData.csv" then some [["Code"], ["2"]] else none,
    now := "T2" }

/-- C3 counterexample: a successful refresh whose new header row is just
`["Code"]` keeps the pre-refresh pair `Old -> 1` in the record —
`_download_data` merges via `dict.update`, it does not replace the extra
fields. -/
theorem C3_counterexample :
    (update_data ⟨[("d", recC3)], [("d", recC3)]⟩ "d" envC3).2 = none ∧
    dictGet (update_data ⟨[("d", recC3)], [("d", recC3)]⟩ "d" envC3).1.mem "d" =
      some [("dl_url", "http://h/old.zip"), ("data_file", "RawData/new.csv"),
            ("meta_data", "RawData/new_meta.csv"), ("Old", "1"), ("updated", "T2"),
            ("Code", "2")] ∧
    dictGet [("dl_url", "http://h/old.zip"), ("data_file", "RawData/new.csv"),
             ("meta_data", "RawData/new_meta.csv"), ("Old", "1"), ("updated", "T2"),
             ("Code", "2")] "Old" = some "1" ∧
    envC3.fs "RawData/11100134_MetaData.csv" = some [["Code"], ["2"]] :=
  ⟨rfl, rfl, rfl, rfl⟩

/-- The record value the success path of `_download_data` leaves for the
fetched dataset: both artifact paths assigned, the parsed header/value
dict merged in via `dict.update`, then `'updated'` set. -/
def mergedRecord (rec0 : Record) (e0 e1 : String) (row0 row1 : List String)
    (now : String) : Record :=
  dictSet
    (dictUpdate
      (dictSet (dictSet rec0 "data_file" ("RawData/" ++ e0)) "meta_data"
        ("RawData/" ++ e1))
      (pyDict ((row0.map cleanToken).zip row1)))
    "updated" now

/-- C3 amended: a successful refresh merges the new header mapping into
the existing record rather than replacing it: every key produced by the
new header row (other than `'updated'`) carries its new value, but every
pre-refresh key that is neither an artifact path, nor `'updated'`, nor
produced by the new header row survives with its old value. -/
theorem C3_refresh_merges (st : DbState) (name : String) (env : Env)
    (rec0 : Record) (url e0 e1 : String) (rows : List (List String))
    (row0 row1 : List String)
    (h1 : dictGet st.mem name = some rec0)
    (h2 : dictGet rec0 "dl_url" = some url)
    (hz : strEndsWith url ".zip")
    (h4 : env.namelist.get? 0 = some e0)
    (h5 : env.namelist.get? 1 = some e1)
    (h6 : env.fs "RawData/11100134_MetaData.csv" = some rows)
    (h7 : (rows.take 2).get? 0 = some row0)
    (h8 : (rows.take 2).get? 1 = some row1) :
    (update_data st name env).2 = none ∧
    dictGet (update_data st name env).1.mem name =
      some (mergedRecord rec0 e0 e1 row0 row1 env.now) ∧
    (∀ k, k ≠ "data_file" → k ≠ "meta_data" → k ≠ "updated" →
      k ∉ ((row0.map cleanToken).zip row1).map Prod.fst →
      dictGet (mergedRecord rec0 e0 e1 row0 row1 env.now) k = dictGet rec0 k) ∧
    (∀ k v, k ≠ "updated" →
      dictGet (pyDict ((row0.map cleanToken).zip row1)) k = some v →
      dictGet (mergedRecord rec0 e0 e1 row0 row1 env.now) k = some v) := by
  have hz' : dlType url = ".zip" := (dlType_eq_zip_iff url).mpr hz
  have hdl := download_data_zip_success st.mem name env rec0 url e0 e1 rows row0 row1
    h1 h2 hz' h4 h5 h6 h7 h8
  refine ⟨?_, ?_, ?_, ?_⟩
  · simp only [update_data, hdl]
  · simp only [update_data, hdl]
    exact dictGet_dictSet_self _ _ _
  · intro k hk1 hk2 hk3 hk4
    unfold mergedRecord
    rw [dictGet_dictSet_ne _ _ _ _ hk3,
      dictGet_dictUpdate_not_mem _ _ _ (fun hc => hk4 ((mem_map_fst_pyDict _ _).mp hc)),
      dictGet_dictSet_ne _ _ _ _ hk2, dictGet_dictSet_ne _ _ _ _ hk1]
  · intro k v hk hv
    unfold mergedRecord
    rw [dictGet_dictSet_ne _ _ _ _ hk]
    exact dictGet_dictUpdate_of_nodup _ _ _ _ (nodup_map_fst_pyDict _) hv

/-- A registered record with a legacy extra field, and a refresh
environment producing only the header `Code -> 7`. -/
def recC3W : Record := [("dl_url", "http://s/w.zip"), ("Legacy", "9")]

def envC3W : Env :=
  { namelist := ["a.csv", "b.csv"],
    fs := fun p =>
      if p = "RawData/11100134_MetaData.csv" then some [["Code"], ["7"]] else none,
    now := "T9" }

theorem C3_refresh_merges_witness :
    (update_data ⟨[("w", recC3W)], [("w", recC3W)]⟩ "w" envC3W).2 = none ∧
    dictGet (mergedRecord recC3W "a.csv" "b.csv" ["Code"] ["7"] "T9") "Legacy" =
      some "9" ∧
    dictGet (mergedRecord recC3W "a.csv" "b.csv" ["Code"] ["7"] "T9") "Code" =
      some "7" := by
  have h := C3_refresh_merges ⟨[("w", recC3W)], [("w", recC3W)]⟩ "w" envC3W
    recC3W "http://s/w.zip" "a.csv" "b.csv" [["Code"], ["7"]] ["Code"] ["7"]
    rfl rfl ⟨"http://s/w".data, rfl⟩ rfl rfl rfl rfl rfl
  exact ⟨h.1,
    h.2.2.1 "Legacy" (by decide) (by decide) (by decide) (by decide),
    h.2.2.2 "Code" "7" (by decide) (by decide)⟩

end CGoose
